import Mathlib

/-!
Verification of the verible front-end analysis slice: the `FileAnalyzer`
tokenize/parse orchestration (`common/analysis/file_analyzer.cc`), the
`FlexLexerAdapter` restart protocol (`common/lexer/flex_lexer_adapter.h`)
and the `Obfuscator` save/load round-trip (`common/strings/obfuscator.cc`),
embedded shallowly: buffers are `List Char`, statuses are an inductive
type, collaborators (lexer, parser) are explicit data.
-/

namespace Verible

/-- Modelled from the spec: `TokenInfo` (from `common/text/token_info.h`,
not under src/) is a token-kind tag plus a zero-copy slice of the original
buffer; the slice is represented by its start offset `left` and byte
length `len` into the buffer. -/
structure TokenInfo where
  token_enum : Nat
  left : Nat
  len : Nat
deriving DecidableEq, Repr

/-- One-past-the-end offset of the token's span (`TokenInfo::right`). -/
def TokenInfo.right (t : TokenInfo) : Nat := t.left + t.len

/-- The bytes of the token's span, recovered from the base buffer
(the zero-copy `text` string_view of the C++ `TokenInfo`). -/
def TokenInfo.text (t : TokenInfo) (base : List Char) : List Char :=
  (base.drop t.left).take t.len

/-- Modelled from the spec: `TokenInfo::isEOF` (from
`common/text/token_info.h`, not under src/) recognizes the distinguished
end-of-file token kind; flex-generated `yylex` returns 0 at end of input,
so the EOF enum is 0. -/
def TokenInfo.isEOF (t : TokenInfo) : Bool := t.token_enum == 0

/-- `TokenInfo::AdvanceText(size)`: move the span to the next `size` bytes
following the current span (used by `UpdateLocation`/`LexerOutput`). -/
def TokenInfo.AdvanceText (t : TokenInfo) (size : Nat) : TokenInfo :=
  { token_enum := t.token_enum, left := t.left + t.len, len := size }

/-- `util::Status` as used by `FileAnalyzer`: ok, or an error with a
message (`util::InvalidArgumentError(msg)`). -/
inductive Status where
  | ok
  | invalidArgument (msg : String)
deriving DecidableEq, Repr

/-- `Status::ok()`. -/
def Status.isOk : Status → Bool
  | .ok => true
  | .invalidArgument _ => false

/-- `AnalysisPhase` is a C++ enum; we keep its underlying integer so the
`default:`/"UNKNOWN" branch of `AnalysisPhaseName` is expressible. -/
abbrev AnalysisPhase := Nat

/-- `AnalysisPhase::kLexPhase`. -/
def kLexPhase : AnalysisPhase := 0
/-- `AnalysisPhase::kPreprocessPhase`. -/
def kPreprocessPhase : AnalysisPhase := 1
/-- `AnalysisPhase::kParsePhase`. -/
def kParsePhase : AnalysisPhase := 2

/-- `AnalysisPhaseName` from `file_analyzer.cc`: translates the phase enum
into a string for diagnostic messages; unknown values print "UNKNOWN". -/
def analysisPhaseName (phase : AnalysisPhase) : String :=
  if phase = kLexPhase then "lexical"
  else if phase = kPreprocessPhase then "preprocessing"
  else if phase = kParsePhase then "syntax"
  else "UNKNOWN"

/-- `RejectedToken`: a token, the phase that rejected it, and an optional
explanation text. -/
structure RejectedToken where
  token_info : TokenInfo
  phase : AnalysisPhase
  explanation : String
deriving DecidableEq, Repr

/-- A concrete syntax tree node (`common/text/concrete_syntax_tree.h` is
not under src/; only its root's null/non-null identity matters here). -/
inductive ConcreteSyntaxTree where
  | leaf (tag : Nat)
  | node (tag : Nat) (children : List ConcreteSyntaxTree)

/-- The `FileAnalyzer` state: one immutable buffer and filename label,
plus the mutable analysis artifacts (token stream, filtered view, per-line
token index, syntax tree root, accumulated rejected tokens). -/
structure FileAnalyzer where
  contents : List Char
  filename : String
  tokenStream : List TokenInfo
  tokenStreamView : List Nat
  firstTokensPerLine : List Nat
  syntaxTree : Option ConcreteSyntaxTree
  rejected_tokens : List RejectedToken

/-- Modelled from the spec: `TextStructureView::EOFToken` (not under src/)
is the canonical end-of-file token, a zero-length span anchored exactly
one-past-the-last-byte of the buffer. -/
def FileAnalyzer.EOFToken (fa : FileAnalyzer) : TokenInfo :=
  { token_enum := 0, left := fa.contents.length, len := 0 }

/-- Offsets of the first byte of each line of the buffer. -/
def lineStartOffsets (contents : List Char) : List Nat :=
  0 :: ((List.range contents.length).filter
    (fun i => contents.getD i ' ' == '\n')).map (· + 1)

/-- Modelled from the spec: `CalculateFirstTokensPerLine` (not under src/)
maps each source line to the index of its first token in the token
stream. -/
def calculateFirstTokensPerLine (contents : List Char)
    (toks : List TokenInfo) : List Nat :=
  (lineStartOffsets contents).map (fun s => toks.findIdx (fun t => s ≤ t.left))

/-- Modelled from the spec: `InitTokenStreamView` (not under src/) builds
the ordered subsequence of indices of syntactically significant tokens,
given the keep-predicate of the concrete language. -/
def initTokenStreamView (keep : TokenInfo → Bool)
    (toks : List TokenInfo) : List Nat :=
  (List.range toks.length).filter (fun i => keep (toks.getD i ⟨0, 0, 0⟩))

/-- A freshly constructed `FileAnalyzer` bound to one buffer and one
filename label, with all analysis artifacts still empty. -/
def mkFileAnalyzer (contents : List Char) (filename : String) : FileAnalyzer :=
  { contents := contents, filename := filename, tokenStream := [],
    tokenStreamView := [], firstTokensPerLine := [], syntaxTree := none,
    rejected_tokens := [] }

/-- Result of the `do { ... } while (!tokens.back().isEOF());` loop of
`FileAnalyzer::Tokenize`: it stops at the first error-classified token, or
at the scanner's EOF token; `ranOut` marks exhaustion of the modelled
lexer stream (a real lexer session always eventually yields EOF). -/
inductive TokenizeLoopResult where
  | errorAt (toks : List TokenInfo) (e : TokenInfo)
  | eofAt (toks : List TokenInfo)
  | ranOut (toks : List TokenInfo)
deriving DecidableEq, Repr

/-- The loop body of `FileAnalyzer::Tokenize`: repeatedly take the lexer's
next token, append it to the token sequence; stop at the first token
classified as an error, else continue until the EOF token. The stateful
lexer collaborator is abstracted by `stream`, the list of tokens its
successive `DoNextToken` calls return after `Restart`. -/
def tokenizeLoop (isError : TokenInfo → Bool) :
    List TokenInfo → List TokenInfo → TokenizeLoopResult
  | [], toks => .ranOut toks
  | t :: rest, toks =>
    let toks' := toks ++ [t]
    if isError t then .errorAt toks' t
    else if t.isEOF then .eofAt toks'
    else tokenizeLoop isError rest toks'

/-- `FileAnalyzer::Tokenize`: restart the lexer on the buffer (abstracted:
`stream` is the post-restart token stream), grab tokens until EOF or the
first lexical error.  On error, record one Lex-phase `RejectedToken` and
fail with "Lexical error.".  On EOF, overwrite the scanner's EOF token
with the canonical zero-length EOF token at buffer end, compute the
per-line first-token index and the filtered stream view. `none` models
the unreachable exhaustion of the stream. -/
def FileAnalyzer.Tokenize (fa : FileAnalyzer) (stream : List TokenInfo)
    (isError : TokenInfo → Bool) (keep : TokenInfo → Bool) :
    Option (FileAnalyzer × Status) :=
  match tokenizeLoop isError stream fa.tokenStream with
  | .errorAt toks e =>
    some ({ fa with
            tokenStream := toks,
            rejected_tokens := fa.rejected_tokens ++
              [{ token_info := e, phase := kLexPhase, explanation := "" }] },
          Status.invalidArgument "Lexical error.")
  | .eofAt toks =>
    let toks' := toks.dropLast ++ [fa.EOFToken]
    some ({ fa with
            tokenStream := toks',
            firstTokensPerLine := calculateFirstTokensPerLine fa.contents toks',
            tokenStreamView := initTokenStreamView keep toks' },
          Status.ok)
  | .ranOut _ => none

/-- The external `Parser` collaborator at its interface boundary: the
status its `Parse()` call returns, the syntax-tree root its `TakeRoot()`
relinquishes (possibly null, possibly partial), and the ordered rejected
tokens its `RejectedTokens()` reports. -/
structure Parser where
  status : Status
  root : Option ConcreteSyntaxTree
  rejectedTokens : List TokenInfo

/-- Outcome of `FileAnalyzer::Parse`: either the process aborts (the
`CHECK` macro fires) or the call returns a status, with the updated
analyzer state. -/
inductive ParseOutcome where
  | aborted (msg : String)
  | returned (fa : FileAnalyzer) (st : Status)

/-- `FileAnalyzer::Parse`: run the parser, transfer the syntax-tree root
regardless of status (a partial tree is still useful), `CHECK` that a
successful parse produced a tree (fatal abort otherwise), and on failure
transcribe every parser-rejected token into the unified rejected-token
list tagged with the Parse phase, returning the parser's status. -/
def FileAnalyzer.Parse (fa : FileAnalyzer) (parser : Parser) : ParseOutcome :=
  let status := parser.status
  let fa1 := { fa with syntaxTree := parser.root }
  if status.isOk then
    match fa1.syntaxTree with
    | none => .aborted ("Expected syntax tree from parsing \"" ++
        fa1.filename ++ "\", but got none.")
    | some _ => .returned fa1 status
  else
    .returned
      { fa1 with
        rejected_tokens := fa1.rejected_tokens ++ parser.rejectedTokens.map
          (fun token =>
            { token_info := token, phase := kParsePhase,
              explanation := "" }) }
      status

/-- Unfolding lemma for the cons case of `tokenizeLoop`. -/
theorem tokenizeLoop_cons (isError : TokenInfo → Bool) (t : TokenInfo)
    (rest toks : List TokenInfo) :
    tokenizeLoop isError (t :: rest) toks =
      (if isError t then .errorAt (toks ++ [t]) t
       else if t.isEOF then .eofAt (toks ++ [t])
       else tokenizeLoop isError rest (toks ++ [t])) := rfl

/-- If the tokenize loop stops with an error, the stream decomposes into a
clean prefix, the first error token, and an untouched remainder, and the
accumulated token sequence is exactly the prior tokens, the clean prefix,
and that error token. -/
theorem tokenizeLoop_errorAt_decomp (isError : TokenInfo → Bool) :
    ∀ (stream toks toks' : List TokenInfo) (e : TokenInfo),
    tokenizeLoop isError stream toks = .errorAt toks' e →
    ∃ pre rest, stream = pre ++ e :: rest ∧
      (∀ t ∈ pre, isError t = false ∧ t.isEOF = false) ∧
      isError e = true ∧ toks' = toks ++ pre ++ [e]
  | [], toks, toks', e => by intro h; simp [tokenizeLoop] at h
  | t :: rest, toks, toks', e => by
    intro h
    rw [tokenizeLoop_cons] at h
    by_cases herr : isError t
    · simp only [herr, if_true] at h
      obtain ⟨h1, h2⟩ := (TokenizeLoopResult.errorAt.injEq _ _ _ _).mp h
      subst h2
      exact ⟨[], rest, by simp, by intro u hu; simp at hu, herr,
        by simp [h1.symm]⟩
    · simp only [herr, if_false] at h
      by_cases heof : t.isEOF
      · simp [heof] at h
      · simp only [heof, if_false] at h
        obtain ⟨pre, rest', hs, hclean, he, htoks⟩ :=
          tokenizeLoop_errorAt_decomp isError rest (toks ++ [t]) toks' e h
        refine ⟨t :: pre, rest', by simp [hs], ?_, he, by simp [htoks]⟩
        intro u hu
        rcases List.mem_cons.mp hu with h1 | h2
        · subst h1
          exact ⟨Bool.eq_false_iff.mpr herr, Bool.eq_false_iff.mpr heof⟩
        · exact hclean u h2

/-- If the stream begins with a clean (no-error, non-EOF) prefix followed
by an error-classified token, the tokenize loop stops exactly there. -/
theorem tokenizeLoop_of_clean_then_error (isError : TokenInfo → Bool)
    (e : TokenInfo) (he : isError e = true) :
    ∀ (pre rest toks : List TokenInfo),
    (∀ t ∈ pre, isError t = false ∧ t.isEOF = false) →
    tokenizeLoop isError (pre ++ e :: rest) toks =
      .errorAt (toks ++ pre ++ [e]) e
  | [], rest, toks, _ => by simp [tokenizeLoop_cons, he]
  | t :: pre', rest, toks, hclean => by
    have ht := hclean t (List.mem_cons_self t pre')
    rw [List.cons_append, tokenizeLoop_cons]
    simp only [ht.1, ht.2, if_false, Bool.false_eq_true]
    rw [tokenizeLoop_of_clean_then_error isError e he pre' rest (toks ++ [t])
      (fun u hu => hclean u (List.mem_cons_of_mem t hu))]
    simp

/-- C1: if `Tokenize` fails, the token sequence stops at the first
error-classified token (nothing later is appended), exactly one Lex-phase
`RejectedToken` with empty explanation is appended, and the returned
status is the non-ok "Lexical error." status. -/
theorem tokenize_stop_on_first_error (fa fa' : FileAnalyzer)
    (stream : List TokenInfo) (isError keep : TokenInfo → Bool) (st : Status)
    (hrun : fa.Tokenize stream isError keep = some (fa', st))
    (hfail : st.isOk = false) :
    ∃ pre e rest, stream = pre ++ e :: rest ∧
      (∀ t ∈ pre, isError t = false ∧ t.isEOF = false) ∧
      isError e = true ∧
      fa'.tokenStream = fa.tokenStream ++ pre ++ [e] ∧
      fa'.rejected_tokens = fa.rejected_tokens ++
        [{ token_info := e, phase := kLexPhase, explanation := "" }] ∧
      st = Status.invalidArgument "Lexical error." ∧ st.isOk = false := by
  unfold FileAnalyzer.Tokenize at hrun
  rcases hloop : tokenizeLoop isError stream fa.tokenStream with
    ⟨toks, e⟩ | toks | toks
  · rw [hloop] at hrun
    obtain ⟨pre, rest, hs, hclean, he, htoks⟩ :=
      tokenizeLoop_errorAt_decomp isError stream fa.tokenStream toks e hloop
    have hfa : fa' = { fa with
        tokenStream := toks,
        rejected_tokens := fa.rejected_tokens ++
          [{ token_info := e, phase := kLexPhase, explanation := "" }] } :=
      ((Prod.mk.injEq _ _ _ _).mp (Option.some.injEq _ _ ▸ hrun)).1.symm
    have hst : st = Status.invalidArgument "Lexical error." :=
      ((Prod.mk.injEq _ _ _ _).mp (Option.some.injEq _ _ ▸ hrun)).2.symm
    exact ⟨pre, e, rest, hs, hclean, he, by rw [hfa, htoks], by rw [hfa],
      hst, hfail⟩
  · rw [hloop] at hrun
    have hst : st = Status.ok :=
      ((Prod.mk.injEq _ _ _ _).mp (Option.some.injEq _ _ ▸ hrun)).2.symm
    rw [hst] at hfail
    simp [Status.isOk] at hfail
  · rw [hloop] at hrun
    simp at hrun

/-- Sample failing lex run for the C1 witness: buffer "a!" lexed as one
identifier token then an error-classified token. -/
def c1Analyzer : FileAnalyzer := mkFileAnalyzer ['a', '!'] "f"

/-- The lexer stream of the C1 witness run. -/
def c1Stream : List TokenInfo := [⟨5, 0, 1⟩, ⟨99, 1, 1⟩]

/-- The analyzer state after the C1 witness run fails. -/
def c1Result : FileAnalyzer :=
  { c1Analyzer with
    tokenStream := c1Stream,
    rejected_tokens := [⟨⟨99, 1, 1⟩, kLexPhase, ""⟩] }

/-- Witness for C1 at a concrete failing run. -/
theorem tokenize_stop_on_first_error_witness :
    (c1Analyzer.Tokenize c1Stream (fun t => t.token_enum == 99)
      (fun _ => true) =
      some (c1Result, Status.invalidArgument "Lexical error.")) ∧
    (Status.invalidArgument "Lexical error.").isOk = false ∧
    ∃ pre e rest, c1Stream = pre ++ e :: rest ∧
      (∀ t ∈ pre, (t.token_enum == 99) = false ∧ t.isEOF = false) ∧
      (e.token_enum == 99) = true ∧
      c1Result.tokenStream = c1Analyzer.tokenStream ++ pre ++ [e] ∧
      c1Result.rejected_tokens = c1Analyzer.rejected_tokens ++
        [{ token_info := e, phase := kLexPhase, explanation := "" }] ∧
      Status.invalidArgument "Lexical error." =
        Status.invalidArgument "Lexical error." ∧
      (Status.invalidArgument "Lexical error.").isOk = false := by
  refine ⟨rfl, by decide, ?_⟩
  exact tokenize_stop_on_first_error c1Analyzer c1Result c1Stream
    (fun t => t.token_enum == 99) (fun _ => true)
    (Status.invalidArgument "Lexical error.") rfl (by decide)

/-- C2: after a successful `Tokenize`, the final token of the sequence is
the canonical EOF token: a zero-length span anchored at the buffer's
length, whatever EOF span the scanner produced. -/
theorem tokenize_canonical_eof (fa fa' : FileAnalyzer)
    (stream : List TokenInfo) (isError keep : TokenInfo → Bool) (st : Status)
    (hrun : fa.Tokenize stream isError keep = some (fa', st))
    (hok : st.isOk = true) :
    fa'.tokenStream.getLast? =
      some { token_enum := 0, left := fa.contents.length, len := 0 } := by
  unfold FileAnalyzer.Tokenize at hrun
  rcases hloop : tokenizeLoop isError stream fa.tokenStream with
    ⟨toks, e⟩ | toks | toks
  · rw [hloop] at hrun
    have hst : st = Status.invalidArgument "Lexical error." :=
      ((Prod.mk.injEq _ _ _ _).mp (Option.some.injEq _ _ ▸ hrun)).2.symm
    rw [hst] at hok
    simp [Status.isOk] at hok
  · rw [hloop] at hrun
    have hfa : fa' = { fa with
        tokenStream := toks.dropLast ++ [fa.EOFToken],
        firstTokensPerLine := calculateFirstTokensPerLine fa.contents
          (toks.dropLast ++ [fa.EOFToken]),
        tokenStreamView := initTokenStreamView keep
          (toks.dropLast ++ [fa.EOFToken]) } :=
      ((Prod.mk.injEq _ _ _ _).mp (Option.some.injEq _ _ ▸ hrun)).1.symm
    rw [hfa]
    show (toks.dropLast ++ [fa.EOFToken]).getLast? = _
    rw [List.getLast?_concat]
    rfl
  · rw [hloop] at hrun
    simp at hrun

/-- Sample successful lex run for the C2 witness: buffer "ab" lexed as
one identifier token then a scanner EOF token carrying a sloppy span. -/
def c2Analyzer : FileAnalyzer := mkFileAnalyzer ['a', 'b'] "f"

/-- The lexer stream of the C2 witness run (note the scanner's EOF token
has a non-canonical span). -/
def c2Stream : List TokenInfo := [⟨5, 0, 2⟩, ⟨0, 1, 1⟩]

/-- The analyzer state after the C2 witness run succeeds. -/
def c2Result : FileAnalyzer :=
  { c2Analyzer with
    tokenStream := [⟨5, 0, 2⟩, ⟨0, 2, 0⟩],
    tokenStreamView := [0, 1],
    firstTokensPerLine := [0] }

/-- Witness for C2: the final token of the successful run is canonical. -/
theorem tokenize_canonical_eof_witness :
    (c2Analyzer.Tokenize c2Stream (fun _ => false) (fun _ => true) =
      some (c2Result, Status.ok)) ∧
    Status.ok.isOk = true ∧
    c2Result.tokenStream.getLast? =
      some { token_enum := 0, left := c2Analyzer.contents.length,
             len := 0 } := by
  refine ⟨rfl, rfl, ?_⟩
  exact tokenize_canonical_eof c2Analyzer c2Result c2Stream
    (fun _ => false) (fun _ => true) Status.ok rfl rfl

/-- C3: when the parser's status is a failure, `Parse` still takes the
syntax tree from the parser, appends every parser-rejected token to the
unified rejected-token list in the parser's reported order tagged with
the Parse phase, and returns the failure status unchanged. -/
theorem parse_failure_transcribes_rejected (fa : FileAnalyzer) (p : Parser)
    (hfail : p.status.isOk = false) :
    fa.Parse p = ParseOutcome.returned
      { fa with
        syntaxTree := p.root,
        rejected_tokens := fa.rejected_tokens ++ p.rejectedTokens.map
          (fun token =>
            { token_info := token, phase := kParsePhase,
              explanation := "" }) }
      p.status := by
  unfold FileAnalyzer.Parse
  simp only [hfail, Bool.false_eq_true, if_false]

/-- Sample failing parser for the C3 witness: two independent syntax
errors reported in source order, with a non-null partial tree. -/
def c3Parser : Parser :=
  { status := Status.invalidArgument "syntax error",
    root := some (ConcreteSyntaxTree.node 1 [ConcreteSyntaxTree.leaf 2]),
    rejectedTokens := [⟨7, 0, 1⟩, ⟨8, 2, 1⟩] }

/-- Witness for C3 at a concrete failing parse. -/
theorem parse_failure_transcribes_rejected_witness :
    c3Parser.status.isOk = false ∧
    (mkFileAnalyzer ['x'] "g").Parse c3Parser = ParseOutcome.returned
      { mkFileAnalyzer ['x'] "g" with
        syntaxTree := c3Parser.root,
        rejected_tokens := (mkFileAnalyzer ['x'] "g").rejected_tokens ++
          c3Parser.rejectedTokens.map
          (fun token =>
            { token_info := token, phase := kParsePhase,
              explanation := "" }) }
      c3Parser.status :=
  ⟨rfl, parse_failure_transcribes_rejected (mkFileAnalyzer ['x'] "g")
    c3Parser rfl⟩

/-- C4: when the parser's status is success, any returned outcome carries
a non-null syntax tree, and a null tree makes `Parse` abort the process
(the `CHECK` fires) instead of returning. -/
theorem parse_success_tree_nonnull (fa : FileAnalyzer) (p : Parser)
    (hok : p.status.isOk = true) :
    (∀ fa' st, fa.Parse p = ParseOutcome.returned fa' st →
      fa'.syntaxTree.isSome = true) ∧
    (p.root = none → fa.Parse p = ParseOutcome.aborted
      ("Expected syntax tree from parsing \"" ++ fa.filename ++
        "\", but got none.")) := by
  constructor
  · intro fa' st h
    unfold FileAnalyzer.Parse at h
    rcases hroot : p.root with _ | t
    · simp only [hok, if_true, hroot] at h
      exact absurd h (by simp)
    · simp only [hok, if_true, hroot] at h
      obtain ⟨h1, h2⟩ := (ParseOutcome.returned.injEq _ _ _ _).mp h
      rw [← h1]
      simp [hroot]
  · intro hroot
    unfold FileAnalyzer.Parse
    simp only [hok, if_true, hroot]

/-- Sample successful parser for the C4 witness. -/
def c4Parser : Parser :=
  { status := Status.ok,
    root := some (ConcreteSyntaxTree.leaf 3),
    rejectedTokens := [] }

/-- Witness for C4 at a concrete successful parse. -/
theorem parse_success_tree_nonnull_witness :
    c4Parser.status.isOk = true ∧
    ((∀ fa' st, (mkFileAnalyzer ['x'] "g").Parse c4Parser =
        ParseOutcome.returned fa' st → fa'.syntaxTree.isSome = true) ∧
     (c4Parser.root = none →
        (mkFileAnalyzer ['x'] "g").Parse c4Parser = ParseOutcome.aborted
          ("Expected syntax tree from parsing \"" ++
            (mkFileAnalyzer ['x'] "g").filename ++ "\", but got none."))) :=
  ⟨rfl, parse_success_tree_nonnull (mkFileAnalyzer ['x'] "g") c4Parser rfl⟩

/-- The state of a `FlexLexerAdapter<L>` session.  The flex-generated
base class `L` is external library code; following the adapter's own
comments ("Keep bottom buffer only", "Keep INITIAL state"), its two stack
counters count contexts, so a value of 1 means only the base buffer
(resp. only the INITIAL start condition) remains. -/
structure FlexLexerState where
  code : List Char
  code_stream : List Char
  last_token : TokenInfo
  yy_buffer_stack_top : Nat
  current_buffer : List Char
  yy_start_stack_ptr : Nat
deriving DecidableEq, Repr

/-- The `while (counter > 1) pop;` loops of `Restart`: pop nested
contexts one at a time until only the base context remains. -/
def popContextLoop : Nat → Nat
  | n + 2 => popContextLoop (n + 1)
  | n => n

/-- `L::yyrestart(&code_stream_)`: point the current (bottom) buffer at
the new stream; flex creates the base buffer if none exists yet. -/
def yyrestart (stream : List Char) (s : FlexLexerState) : FlexLexerState :=
  { s with
    yy_buffer_stack_top := max s.yy_buffer_stack_top 1,
    current_buffer := stream }

/-- The `FlexLexerAdapter` constructor: hold the code, copy it into the
stream, and point `last_token_` at the beginning of the buffer (a
zero-length span at offset 0, with a don't-care enum of 0). -/
def mkFlexLexerAdapter (code : List Char) : FlexLexerState :=
  { code := code, code_stream := code, last_token := ⟨0, 0, 0⟩,
    yy_buffer_stack_top := 1, current_buffer := code,
    yy_start_stack_ptr := 1 }

/-- `FlexLexerAdapter::GetLastToken`. -/
def FlexLexerState.GetLastToken (s : FlexLexerState) : TokenInfo :=
  s.last_token

/-- `FlexLexerAdapter::Restart`: install the new input and reset all
state — set the code view and stream copy, reset `last_token_` to a
zero-length span at offset 0, pop the buffer stack down to the bottom
buffer, `yyrestart` the current buffer onto the new stream, and pop the
start-condition stack down to the INITIAL state. -/
def FlexLexerState.Restart (code : List Char) (s : FlexLexerState) :
    FlexLexerState :=
  let s1 := { s with
              code := code,
              code_stream := code,
              last_token := (⟨0, 0, 0⟩ : TokenInfo) }
  let s2 := { s1 with
              yy_buffer_stack_top := popContextLoop s1.yy_buffer_stack_top }
  let s3 := yyrestart s2.code_stream s2
  { s3 with yy_start_stack_ptr := popContextLoop s3.yy_start_stack_ptr }

/-- `FlexLexerAdapter::LexerOutput`: last-resort guard for unrecognized
characters — advance the location bookmark by the size of the rejected
text and continue (no error token is synthesized here). -/
def FlexLexerState.LexerOutput (size : Nat) (s : FlexLexerState) :
    FlexLexerState :=
  { s with last_token := s.last_token.AdvanceText size }

/-- The token sequence obtained by driving a lexer session `n` steps with
a deterministic step function (the concrete `yylex`-driven
`DoNextToken`). -/
def runTokens (step : FlexLexerState → TokenInfo × FlexLexerState) :
    Nat → FlexLexerState → List TokenInfo
  | 0, _ => []
  | n + 1, s => (step s).1 :: runTokens step n (step s).2

/-- `popContextLoop` never leaves more than the base context. -/
theorem popContextLoop_le_one : ∀ n, popContextLoop n ≤ 1
  | 0 => by simp [popContextLoop]
  | 1 => by simp [popContextLoop]
  | n + 2 => by rw [popContextLoop]; exact popContextLoop_le_one (n + 1)

/-- `popContextLoop` leaves an already-unwound stack untouched. -/
theorem popContextLoop_of_le_one : ∀ n, n ≤ 1 → popContextLoop n = n
  | 0, _ => rfl
  | 1, _ => rfl

/-- Unwinding a non-empty context stack leaves exactly the base
context. -/
theorem popContextLoop_eq_one : ∀ n, 1 ≤ n → popContextLoop n = 1
  | 1, _ => rfl
  | n + 2, _ => by
    rw [popContextLoop]
    exact popContextLoop_eq_one (n + 1) (by omega)

/-- C5: restarting twice in a row with the same input leaves the session
in a state identical to a single restart — both context stacks are
unwound to the single base/INITIAL context — so any subsequent token run
is identical to a single run. -/
theorem restart_idempotent (s : FlexLexerState) (c : List Char)
    (hstart : 1 ≤ s.yy_start_stack_ptr) :
    FlexLexerState.Restart c (FlexLexerState.Restart c s) =
      FlexLexerState.Restart c s ∧
    (FlexLexerState.Restart c s).yy_buffer_stack_top = 1 ∧
    (FlexLexerState.Restart c s).yy_start_stack_ptr = 1 ∧
    ∀ step n, runTokens step n (FlexLexerState.Restart c
        (FlexLexerState.Restart c s)) =
      runTokens step n (FlexLexerState.Restart c s) := by
  have htop : ∀ t : FlexLexerState,
      (FlexLexerState.Restart c t).yy_buffer_stack_top = 1 := by
    intro t
    show max (popContextLoop t.yy_buffer_stack_top) 1 = 1
    have := popContextLoop_le_one t.yy_buffer_stack_top
    omega
  have hptr : ∀ t : FlexLexerState,
      (FlexLexerState.Restart c t).yy_start_stack_ptr =
        popContextLoop t.yy_start_stack_ptr := fun _ => rfl
  have heq : FlexLexerState.Restart c (FlexLexerState.Restart c s) =
      FlexLexerState.Restart c s := by
    simp only [FlexLexerState.Restart, yyrestart]
    rw [FlexLexerState.mk.injEq]
    have hb := popContextLoop_le_one s.yy_buffer_stack_top
    have h3 : max (popContextLoop s.yy_buffer_stack_top) 1 = 1 := by omega
    refine ⟨rfl, rfl, rfl, ?_, rfl, ?_⟩
    · rw [h3]; decide
    · exact popContextLoop_of_le_one _ (popContextLoop_le_one _)
  refine ⟨heq, htop s, ?_, fun step n => by rw [heq]⟩
  rw [hptr]
  exact popContextLoop_eq_one _ hstart

/-- Witness for C5 at a concrete nested-state session: two extra buffer
contexts and one extra start-condition context. -/
theorem restart_idempotent_witness :
    1 ≤ (2 : Nat) ∧
    (FlexLexerState.Restart ['b']
        (FlexLexerState.Restart ['b']
          ⟨['a'], ['a'], ⟨4, 1, 2⟩, 3, ['a'], 2⟩) =
      FlexLexerState.Restart ['b'] ⟨['a'], ['a'], ⟨4, 1, 2⟩, 3, ['a'], 2⟩ ∧
    (FlexLexerState.Restart ['b']
        ⟨['a'], ['a'], ⟨4, 1, 2⟩, 3, ['a'], 2⟩).yy_buffer_stack_top = 1 ∧
    (FlexLexerState.Restart ['b']
        ⟨['a'], ['a'], ⟨4, 1, 2⟩, 3, ['a'], 2⟩).yy_start_stack_ptr = 1 ∧
    ∀ step n, runTokens step n (FlexLexerState.Restart ['b']
        (FlexLexerState.Restart ['b']
          ⟨['a'], ['a'], ⟨4, 1, 2⟩, 3, ['a'], 2⟩)) =
      runTokens step n
        (FlexLexerState.Restart ['b'] ⟨['a'], ['a'], ⟨4, 1, 2⟩, 3, ['a'], 2⟩)) :=
  ⟨by decide,
    restart_idempotent ⟨['a'], ['a'], ⟨4, 1, 2⟩, 3, ['a'], 2⟩ ['b']
      (by decide)⟩

/-- C9: immediately after construction, and immediately after every
`Restart`, `GetLastToken` returns a zero-length token anchored at offset
0 of the current input buffer. -/
theorem last_token_initially_at_origin :
    ∀ (code : List Char) (s : FlexLexerState) (c : List Char),
    (mkFlexLexerAdapter code).GetLastToken.left = 0 ∧
    (mkFlexLexerAdapter code).GetLastToken.len = 0 ∧
    (FlexLexerState.Restart c s).GetLastToken.left = 0 ∧
    (FlexLexerState.Restart c s).GetLastToken.len = 0 :=
  fun _ _ _ => ⟨rfl, rfl, rfl, rfl⟩

/-- C6: on an input whose lexer run yields valid tokens followed by an
error-classified token whose text is a single unrecognized character,
`Tokenize` halts there: the final token sequence is the preceding valid
tokens plus the error marker, and one Lex-phase `RejectedToken` carrying
that single-character text is recorded.  (The concrete lexer's
classification of the unrecognized character as an error token is the
spec's scenario; the lexical rules themselves are not under src/.) -/
theorem tokenize_unrecognized_char (fa : FileAnalyzer)
    (pre rest : List TokenInfo) (e : TokenInfo) (c : Char)
    (isError keep : TokenInfo → Bool)
    (hfresh : fa.tokenStream = [])
    (hclean : ∀ t ∈ pre, isError t = false ∧ t.isEOF = false)
    (herr : isError e = true)
    (htext : e.text fa.contents = [c]) :
    ∃ fa', fa.Tokenize (pre ++ e :: rest) isError keep =
        some (fa', Status.invalidArgument "Lexical error.") ∧
      fa'.tokenStream = pre ++ [e] ∧
      fa'.rejected_tokens = fa.rejected_tokens ++
        [{ token_info := e, phase := kLexPhase, explanation := "" }] ∧
      (∃ r, fa'.rejected_tokens.getLast? = some r ∧ r.phase = kLexPhase ∧
        r.token_info.text fa.contents = [c]) := by
  have hloop := tokenizeLoop_of_clean_then_error isError e herr pre rest
    fa.tokenStream hclean
  rw [hfresh] at hloop
  simp only [List.nil_append] at hloop
  refine ⟨{ fa with
            tokenStream := pre ++ [e],
            rejected_tokens := fa.rejected_tokens ++
              [{ token_info := e, phase := kLexPhase, explanation := "" }] },
    ?_, rfl, rfl, ?_⟩
  · unfold FileAnalyzer.Tokenize
    rw [hfresh, hloop]
  · refine ⟨{ token_info := e, phase := kLexPhase, explanation := "" },
      ?_, rfl, htext⟩
    show (fa.rejected_tokens ++
      [({ token_info := e, phase := kLexPhase,
          explanation := "" } : RejectedToken)]).getLast? =
      some { token_info := e, phase := kLexPhase, explanation := "" }
    rw [List.getLast?_concat]

/-- Sample analyzer for the C6 witness: buffer "ab$cd" where `$` is the
unrecognized character; the lexer yields the identifier token for "ab"
then the single-character error token. -/
def c6Analyzer : FileAnalyzer := mkFileAnalyzer ['a', 'b', '$', 'c', 'd'] "f"

/-- Witness for C6 at the concrete "ab$cd" run. -/
theorem tokenize_unrecognized_char_witness :
    c6Analyzer.tokenStream = [] ∧
    (∀ t ∈ ([⟨5, 0, 2⟩] : List TokenInfo),
      (t.token_enum == 99) = false ∧ t.isEOF = false) ∧
    ((⟨99, 2, 1⟩ : TokenInfo).token_enum == 99) = true ∧
    (⟨99, 2, 1⟩ : TokenInfo).text c6Analyzer.contents = ['$'] ∧
    ∃ fa', c6Analyzer.Tokenize ([⟨5, 0, 2⟩] ++ ⟨99, 2, 1⟩ :: [])
        (fun t => t.token_enum == 99) (fun _ => true) =
        some (fa', Status.invalidArgument "Lexical error.") ∧
      fa'.tokenStream = [⟨5, 0, 2⟩] ++ [⟨99, 2, 1⟩] ∧
      fa'.rejected_tokens = c6Analyzer.rejected_tokens ++
        [{ token_info := ⟨99, 2, 1⟩, phase := kLexPhase,
           explanation := "" }] ∧
      (∃ r, fa'.rejected_tokens.getLast? = some r ∧ r.phase = kLexPhase ∧
        r.token_info.text c6Analyzer.contents = ['$']) := by
  refine ⟨rfl, by decide, by decide, by decide, ?_⟩
  exact tokenize_unrecognized_char c6Analyzer [⟨5, 0, 2⟩] [] ⟨99, 2, 1⟩ '$'
    (fun t => t.token_enum == 99) (fun _ => true) rfl (by decide) (by decide)
    (by decide)

/-- Modelled from the spec: `LineColumn` (from
`common/text/line_column_map.h`, not under src/) holds a 0-based line and
column as machine integers; the call sites promote them to 1-based. -/
structure LineColumn where
  line : Int
  column : Int
deriving DecidableEq, Repr

/-- Modelled from the spec: `LineColumnMap::operator()(offset)` (not
under src/) resolves a byte offset of the buffer to its 0-based line
(newlines seen before the offset) and 0-based column (bytes since the
last newline). -/
def lineColumnAt (contents : List Char) (offset : Nat) : LineColumn :=
  let seen := contents.take offset
  { line := seen.count '\n',
    column := (seen.reverse.takeWhile (fun ch => ch != '\n')).length }

/-- Modelled from the spec: `operator<<(std::ostream&, const LineColumn&)`
(not under src/) prints the position 1-based as `<line>:<column>` ("Already
prints 1-based index" at the call site in `TokenErrorMessage`). -/
def LineColumn.render (lc : LineColumn) : String :=
  toString (lc.line + 1) ++ ":" ++ toString (lc.column + 1)

/-- `FileAnalyzer::TokenErrorMessage`: human-readable message for a
rejected token.  For a non-EOF token, resolve the left boundary and the
right boundary (column decremented to point at the last character); on
the same line print the left position, appending `-<right column+1>` only
when the bound differs by more than one character; on different lines
append the full right position.  For the EOF token report the position of
the buffer end.  (The C++ tests `!isEOF()` first; the two branches are
swapped here, same semantics.) -/
def FileAnalyzer.TokenErrorMessage (fa : FileAnalyzer)
    (error_token : TokenInfo) : String :=
  if error_token.isEOF then
    "token: <<EOF>> at " ++ (lineColumnAt fa.contents fa.contents.length).render
  else
    let left := lineColumnAt fa.contents error_token.left
    let right0 := lineColumnAt fa.contents error_token.right
    let right : LineColumn := { line := right0.line,
                                column := right0.column - 1 }
    let base := "token: \"" ++ String.mk (error_token.text fa.contents) ++
      "\" at " ++ left.render
    if left.line = right.line then
      if left.column + 1 < right.column then
        base ++ "-" ++ toString (right.column + 1)
      else base
    else
      base ++ "-" ++ right.render

/-- Appending the empty string on the right is the identity. -/
theorem string_append_empty_right (s : String) : s ++ "" = s := by
  cases s with
  | mk d =>
    show String.mk (d ++ []) = String.mk d
    rw [List.append_nil]

/-- String concatenation is associative. -/
theorem string_append_assoc (a b c : String) : a ++ b ++ c = a ++ (b ++ c) := by
  cases a with
  | mk ad =>
    cases b with
    | mk bd =>
      cases c with
      | mk cd =>
        show String.mk (ad ++ bd ++ cd) = String.mk (ad ++ (bd ++ cd))
        rw [List.append_assoc]

/-- C7: for a non-EOF token whose boundaries resolve to the same line,
the plain message prints only the left position, with the range suffix
`-<right inclusive 1-based column>` appended exactly when the 1-based
inclusive columns differ by more than one. -/
theorem token_error_message_same_line (fa : FileAnalyzer) (t : TokenInfo)
    (hnoteof : t.isEOF = false)
    (hline : (lineColumnAt fa.contents t.left).line =
      (lineColumnAt fa.contents t.right).line) :
    fa.TokenErrorMessage t =
      "token: \"" ++ String.mk (t.text fa.contents) ++ "\" at " ++
        (lineColumnAt fa.contents t.left).render ++
      (if (lineColumnAt fa.contents t.right).column -
          ((lineColumnAt fa.contents t.left).column + 1) > 1
       then "-" ++ toString (lineColumnAt fa.contents t.right).column
       else "") := by
  unfold FileAnalyzer.TokenErrorMessage
  simp only [hnoteof, Bool.false_eq_true, if_false]
  rw [if_pos hline]
  by_cases hc : (lineColumnAt fa.contents t.left).column + 1 <
      (lineColumnAt fa.contents t.right).column - 1
  · rw [if_pos hc, if_pos (by omega)]
    rw [Int.sub_add_cancel, string_append_assoc]
  · rw [if_neg hc, if_neg (by omega)]
    rw [string_append_empty_right]

/-- Sample analyzer for the C7 witness: a token spanning 1-based columns
3-6 of the single line "xxabcd;". -/
def c7Analyzer : FileAnalyzer :=
  mkFileAnalyzer ['x', 'x', 'a', 'b', 'c', 'd', ';'] "f"

/-- The C7 witness token: enum 5, offsets [2, 6). -/
def c7Token : TokenInfo := ⟨5, 2, 4⟩

/-- Witness for C7: the range case, token spanning columns 3-6 on one
line, prints "1:3-6". -/
theorem token_error_message_same_line_witness :
    c7Token.isEOF = false ∧
    (lineColumnAt c7Analyzer.contents c7Token.left).line =
      (lineColumnAt c7Analyzer.contents c7Token.right).line ∧
    c7Analyzer.TokenErrorMessage c7Token =
      "token: \"" ++ String.mk (c7Token.text c7Analyzer.contents) ++
        "\" at " ++ (lineColumnAt c7Analyzer.contents c7Token.left).render ++
      (if (lineColumnAt c7Analyzer.contents c7Token.right).column -
          ((lineColumnAt c7Analyzer.contents c7Token.left).column + 1) > 1
       then "-" ++
        toString (lineColumnAt c7Analyzer.contents c7Token.right).column
       else "") ∧
    c7Analyzer.TokenErrorMessage c7Token = "token: \"abcd\" at 1:3-6" := by
  refine ⟨rfl, by decide, ?_, by decide⟩
  exact token_error_message_same_line c7Analyzer c7Token rfl (by decide)

/-- `GetHelpTopicUrl` from `file_analyzer.cc`: the help reference printed
in tool-integration messages (the topic is presently ignored). -/
def getHelpTopicUrl (_topic : String) : String :=
  "https://github.com/google/verible"

/-- `FileAnalyzer::LinterTokenErrorMessage`: the tool-integration message
for a rejected token, `<filename>:<line>:<column>: <phase> error,
rejected "<text>" (<help url>).`, with the EOF token reported as an
unexpected-EOF condition, and a non-empty explanation appended after the
period separated by two spaces.  (The C++ tests `!isEOF()` first; the two
branches are swapped here, same semantics.) -/
def FileAnalyzer.LinterTokenErrorMessage (fa : FileAnalyzer)
    (error_token : RejectedToken) : String :=
  let head := fa.filename ++ ":"
  let tail := if error_token.explanation = "" then ""
    else "  " ++ error_token.explanation
  if error_token.token_info.isEOF then
    head ++ (lineColumnAt fa.contents fa.contents.length).render ++ ": " ++
      analysisPhaseName error_token.phase ++ " error (unexpected EOF) (" ++
      getHelpTopicUrl "syntax-error" ++ ")." ++ tail
  else
    head ++ (lineColumnAt fa.contents error_token.token_info.left).render ++
      ": " ++ analysisPhaseName error_token.phase ++ " error, rejected \"" ++
      String.mk (error_token.token_info.text fa.contents) ++ "\" (" ++
      getHelpTopicUrl "syntax-error" ++ ")." ++ tail

/-- C8: the tool-integration message format — the phase renders as
"lexical"/"preprocessing"/"syntax" ("UNKNOWN" for any other enum value),
a non-EOF rejected token is quoted in the
`<filename>:<line>:<column>: <phase> error, rejected "<text>" (<url>).`
format, the EOF token is described as an unexpected-EOF condition
instead, and a non-empty explanation is appended after the period
separated by two spaces. -/
theorem linter_token_error_message_format (fa : FileAnalyzer)
    (rt : RejectedToken) (p : AnalysisPhase)
    (hp : p ≠ kLexPhase ∧ p ≠ kPreprocessPhase ∧ p ≠ kParsePhase) :
    analysisPhaseName kLexPhase = "lexical" ∧
    analysisPhaseName kPreprocessPhase = "preprocessing" ∧
    analysisPhaseName kParsePhase = "syntax" ∧
    analysisPhaseName p = "UNKNOWN" ∧
    (rt.token_info.isEOF = false →
      fa.LinterTokenErrorMessage rt =
        fa.filename ++ ":" ++
        (lineColumnAt fa.contents rt.token_info.left).render ++ ": " ++
        analysisPhaseName rt.phase ++ " error, rejected \"" ++
        String.mk (rt.token_info.text fa.contents) ++ "\" (" ++
        "https://github.com/google/verible" ++ ")." ++
        (if rt.explanation = "" then "" else "  " ++ rt.explanation)) ∧
    (rt.token_info.isEOF = true →
      fa.LinterTokenErrorMessage rt =
        fa.filename ++ ":" ++
        (lineColumnAt fa.contents fa.contents.length).render ++ ": " ++
        analysisPhaseName rt.phase ++ " error (unexpected EOF) (" ++
        "https://github.com/google/verible" ++ ")." ++
        (if rt.explanation = "" then "" else "  " ++ rt.explanation)) := by
  obtain ⟨hp0, hp1, hp2⟩ := hp
  refine ⟨rfl, rfl, rfl, ?_, ?_, ?_⟩
  · unfold analysisPhaseName
    rw [if_neg hp0, if_neg hp1, if_neg hp2]
  · intro heof
    unfold FileAnalyzer.LinterTokenErrorMessage
    simp only [heof, Bool.false_eq_true, if_false]
    rfl
  · intro heof
    unfold FileAnalyzer.LinterTokenErrorMessage
    simp only [heof, if_true]
    rfl

/-- Sample rejected token for the C8 witness: a non-EOF token with a
non-empty explanation on buffer "ab". -/
def c8Rejected : RejectedToken :=
  { token_info := ⟨5, 0, 2⟩, phase := kParsePhase,
    explanation := "details" }

/-- Witness for C8 at a concrete non-EOF rejected token and the phase
value 7. -/
theorem linter_token_error_message_format_witness :
    ((7 : AnalysisPhase) ≠ kLexPhase ∧ (7 : AnalysisPhase) ≠ kPreprocessPhase ∧
      (7 : AnalysisPhase) ≠ kParsePhase) ∧
    (analysisPhaseName kLexPhase = "lexical" ∧
     analysisPhaseName kPreprocessPhase = "preprocessing" ∧
     analysisPhaseName kParsePhase = "syntax" ∧
     analysisPhaseName 7 = "UNKNOWN" ∧
     (c8Rejected.token_info.isEOF = false →
       (mkFileAnalyzer ['a', 'b'] "f.sv").LinterTokenErrorMessage c8Rejected =
         (mkFileAnalyzer ['a', 'b'] "f.sv").filename ++ ":" ++
         (lineColumnAt (mkFileAnalyzer ['a', 'b'] "f.sv").contents
           c8Rejected.token_info.left).render ++ ": " ++
         analysisPhaseName c8Rejected.phase ++ " error, rejected \"" ++
         String.mk (c8Rejected.token_info.text
           (mkFileAnalyzer ['a', 'b'] "f.sv").contents) ++ "\" (" ++
         "https://github.com/google/verible" ++ ")." ++
         (if c8Rejected.explanation = "" then ""
          else "  " ++ c8Rejected.explanation)) ∧
     (c8Rejected.token_info.isEOF = true →
       (mkFileAnalyzer ['a', 'b'] "f.sv").LinterTokenErrorMessage c8Rejected =
         (mkFileAnalyzer ['a', 'b'] "f.sv").filename ++ ":" ++
         (lineColumnAt (mkFileAnalyzer ['a', 'b'] "f.sv").contents
           (mkFileAnalyzer ['a', 'b'] "f.sv").contents.length).render ++
         ": " ++ analysisPhaseName c8Rejected.phase ++
         " error (unexpected EOF) (" ++
         "https://github.com/google/verible" ++ ")." ++
         (if c8Rejected.explanation = "" then ""
          else "  " ++ c8Rejected.explanation))) ∧
    (mkFileAnalyzer ['a', 'b'] "f.sv").LinterTokenErrorMessage c8Rejected =
      "f.sv:1:1: syntax error, rejected \"ab\" " ++
      "(https://github.com/google/verible).  details" := by
  refine ⟨by decide, ?_, by decide⟩
  exact linter_token_error_message_format (mkFileAnalyzer ['a', 'b'] "f.sv")
    c8Rejected 7 (by decide)

/-- `absl::StrSplit(text, sep)` for a single-character separator: split
at every separator occurrence, keeping empty pieces (skipping empties is
a separate filter). -/
def splitChar (c : Char) : List Char → List (List Char)
  | [] => [[]]
  | x :: xs =>
    if x = c then [] :: splitChar c xs
    else
      match splitChar c xs with
      | [] => [[x]]
      | g :: gs => (x :: g) :: gs

/-- The obfuscator state: the forward key-to-value pairs of its bijective
translator map, in insertion order. -/
structure Obfuscator where
  translator : List (List Char × List Char)
deriving DecidableEq, Repr

/-- Modelled from the spec: `BijectiveMap::insert` (from
`common/util/bijective_map.h`, not under src/) inserts the pair only when
neither the key nor the value is already present, preserving a bijective
forward map; `Obfuscator::encode` forwards to it (its success flag is
discarded by `load`). -/
def Obfuscator.encode (ob : Obfuscator) (key value : List Char) :
    Obfuscator :=
  if key ∈ ob.translator.map Prod.fst ∨ value ∈ ob.translator.map Prod.snd
  then ob
  else ⟨ob.translator ++ [(key, value)]⟩

/-- `Obfuscator::save`: one `<key><space><value><newline>` line per
forward-map pair. -/
def Obfuscator.save (ob : Obfuscator) : List Char :=
  (ob.translator.map (fun p => p.1 ++ ' ' :: p.2 ++ ['\n'])).flatten

/-- The line-processing loop of `Obfuscator::load`: split each line on
the pair separator; a line with fewer than two elements fails with an
InvalidArgument status, otherwise the first two elements are encoded. -/
def Obfuscator.loadLines (ob : Obfuscator) :
    List (List Char) → Status × Obfuscator
  | [] => (Status.ok, ob)
  | line :: rest =>
    let elements := splitChar ' ' line
    if elements.length < 2 then
      (Status.invalidArgument ("Failed to parse line:\n" ++ String.mk line),
        ob)
    else Obfuscator.loadLines
      (ob.encode (elements.getD 0 []) (elements.getD 1 [])) rest

/-- `Obfuscator::load`: split the mapping into lines, skipping empty
ones, and process each line in order. -/
def Obfuscator.load (ob : Obfuscator) (mapping : List Char) :
    Status × Obfuscator :=
  ob.loadLines ((splitChar '\n' mapping).filter (fun l => !l.isEmpty))

/-- Splitting a separator-free list yields the single piece. -/
theorem splitChar_of_not_mem (c : Char) :
    ∀ xs : List Char, c ∉ xs → splitChar c xs = [xs]
  | [], _ => rfl
  | x :: xs, h => by
    have hx : ¬x = c := fun he => h (he ▸ List.mem_cons_self x xs)
    rw [splitChar, if_neg hx,
      splitChar_of_not_mem c xs (fun hm => h (List.mem_cons_of_mem _ hm))]

/-- Splitting peels off a separator-free piece before a separator. -/
theorem splitChar_append_cons (c : Char) :
    ∀ xs ys : List Char, c ∉ xs →
    splitChar c (xs ++ c :: ys) = xs :: splitChar c ys
  | [], ys, _ => by simp [splitChar]
  | x :: xs, ys, h => by
    have hx : ¬x = c := fun he => h (he ▸ List.mem_cons_self x xs)
    rw [List.cons_append, splitChar, if_neg hx,
      splitChar_append_cons c xs ys (fun hm => h (List.mem_cons_of_mem _ hm))]

/-- Splitting a saved mapping on newlines recovers the
`<key><space><value>` lines (plus the trailing empty piece). -/
theorem splitChar_save (pairs : List (List Char × List Char))
    (h : ∀ p ∈ pairs, '\n' ∉ p.1 ∧ '\n' ∉ p.2) :
    splitChar '\n'
      ((pairs.map (fun p => p.1 ++ ' ' :: p.2 ++ ['\n'])).flatten) =
      pairs.map (fun p => p.1 ++ ' ' :: p.2) ++ [[]] := by
  induction pairs with
  | nil => rfl
  | cons p ps ih =>
    obtain ⟨hk, hv⟩ := h p (List.mem_cons_self p ps)
    have hline : '\n' ∉ p.1 ++ ' ' :: p.2 := by
      intro hm
      rcases List.mem_append.mp hm with h1 | h2
      · exact hk h1
      · rcases List.mem_cons.mp h2 with h3 | h4
        · exact absurd h3 (by decide)
        · exact hv h4
    rw [List.map_cons, List.flatten_cons, List.append_assoc,
      List.singleton_append, splitChar_append_cons _ _ _ hline,
      ih (fun q hq => h q (List.mem_cons_of_mem p hq)), List.map_cons,
      List.cons_append]

/-- Every `<key><space><value>` line is non-empty, so skipping empty
pieces keeps exactly the lines. -/
theorem filter_save_lines (pairs : List (List Char × List Char)) :
    ((pairs.map (fun p : List Char × List Char => p.1 ++ ' ' :: p.2) ++
        [[]]).filter (fun l => !l.isEmpty)) =
      pairs.map (fun p : List Char × List Char => p.1 ++ ' ' :: p.2) := by
  rw [List.filter_append]
  have h1 : (([[]] : List (List Char)).filter (fun l => !l.isEmpty)) = [] :=
    rfl
  have h2 : ((pairs.map
        (fun p : List Char × List Char => p.1 ++ ' ' :: p.2)).filter
      (fun l => !l.isEmpty)) =
      pairs.map (fun p : List Char × List Char => p.1 ++ ' ' :: p.2) := by
    rw [List.filter_eq_self]
    intro l hl
    obtain ⟨q, _, hq⟩ := List.mem_map.mp hl
    rw [← hq]
    rcases q.1 with _ | ⟨a, as⟩ <;> rfl
  rw [h1, h2, List.append_nil]

/-- Processing the saved lines of clean, duplicate-free pairs re-inserts
exactly those pairs after the accumulated translator. -/
theorem loadLines_save_lines :
    ∀ (pairs : List (List Char × List Char)) (acc : Obfuscator),
    (∀ p ∈ pairs, ' ' ∉ p.1 ∧ ' ' ∉ p.2) →
    ((acc.translator ++ pairs).map Prod.fst).Nodup →
    ((acc.translator ++ pairs).map Prod.snd).Nodup →
    Obfuscator.loadLines acc (pairs.map (fun p => p.1 ++ ' ' :: p.2)) =
      (Status.ok, ⟨acc.translator ++ pairs⟩)
  | [], acc, _, _, _ => by
    rcases acc with ⟨t⟩
    simp [Obfuscator.loadLines]
  | (k, v) :: ps, acc, hclean, hkeys, hvals => by
    obtain ⟨hks, hvs⟩ := hclean (k, v) (List.mem_cons_self _ ps)
    have hsplit : splitChar ' ' (k ++ ' ' :: v) = [k, v] := by
      rw [splitChar_append_cons _ _ _ hks, splitChar_of_not_mem _ _ hvs]
    have hknotin : k ∉ acc.translator.map Prod.fst := by
      rw [List.map_append] at hkeys
      exact fun hmem => (List.disjoint_of_nodup_append hkeys) hmem
        (by simp)
    have hvnotin : v ∉ acc.translator.map Prod.snd := by
      rw [List.map_append] at hvals
      exact fun hmem => (List.disjoint_of_nodup_append hvals) hmem
        (by simp)
    have henc : acc.encode k v = ⟨acc.translator ++ [(k, v)]⟩ := by
      unfold Obfuscator.encode
      rw [if_neg (not_or.mpr ⟨hknotin, hvnotin⟩)]
    rw [List.map_cons, Obfuscator.loadLines]
    simp only [hsplit]
    rw [if_neg (by simp : ¬(([k, v] : List (List Char)).length < 2))]
    have hassoc : (acc.translator ++ [(k, v)]) ++ ps =
        acc.translator ++ (k, v) :: ps := by
      rw [List.append_assoc, List.singleton_append]
    have hrec := loadLines_save_lines ps ⟨acc.translator ++ [(k, v)]⟩
      (fun q hq => hclean q (List.mem_cons_of_mem _ hq))
      (by rw [show (⟨acc.translator ++ [(k, v)]⟩ : Obfuscator).translator ++
          ps = acc.translator ++ (k, v) :: ps from hassoc]; exact hkeys)
      (by rw [show (⟨acc.translator ++ [(k, v)]⟩ : Obfuscator).translator ++
          ps = acc.translator ++ (k, v) :: ps from hassoc]; exact hvals)
    show (acc.encode k v).loadLines
        (ps.map (fun p : List Char × List Char => p.1 ++ ' ' :: p.2)) =
      (Status.ok, ⟨acc.translator ++ (k, v) :: ps⟩)
    rw [henc, hrec, hassoc]

/-- C10: for an obfuscator whose recorded keys and values contain no
space and no newline, loading the saved mapping into a fresh obfuscator
returns an OK status and reproduces exactly the same forward
key-to-value mapping. -/
theorem obfuscator_save_load_roundtrip (ob : Obfuscator)
    (hkeys : (ob.translator.map Prod.fst).Nodup)
    (hvals : (ob.translator.map Prod.snd).Nodup)
    (hclean : ∀ p ∈ ob.translator,
      (' ' ∉ p.1 ∧ '\n' ∉ p.1) ∧ (' ' ∉ p.2 ∧ '\n' ∉ p.2)) :
    Obfuscator.load ⟨[]⟩ ob.save = (Status.ok, ob) := by
  unfold Obfuscator.load Obfuscator.save
  rw [splitChar_save ob.translator
      (fun p hp => ⟨(hclean p hp).1.2, (hclean p hp).2.2⟩),
    filter_save_lines]
  have h := loadLines_save_lines ob.translator ⟨[]⟩
    (fun p hp => ⟨(hclean p hp).1.1, (hclean p hp).2.1⟩)
    (by simpa using hkeys) (by simpa using hvals)
  rw [h]
  rcases ob with ⟨t⟩
  simp

/-- Sample obfuscator for the C10 witness: two clean pairs. -/
def c10Obfuscator : Obfuscator :=
  ⟨[(['a'], ['x']), (['b', 'c'], ['y', 'z'])]⟩

/-- Witness for C10 at the concrete two-pair obfuscator. -/
theorem obfuscator_save_load_roundtrip_witness :
    (c10Obfuscator.translator.map Prod.fst).Nodup ∧
    (c10Obfuscator.translator.map Prod.snd).Nodup ∧
    (∀ p ∈ c10Obfuscator.translator,
      (' ' ∉ p.1 ∧ '\n' ∉ p.1) ∧ (' ' ∉ p.2 ∧ '\n' ∉ p.2)) ∧
    Obfuscator.load ⟨[]⟩ c10Obfuscator.save = (Status.ok, c10Obfuscator) := by
  refine ⟨by decide, by decide, by decide, ?_⟩
  exact obfuscator_save_load_roundtrip c10Obfuscator (by decide) (by decide)
    (by decide)

end Verible
